import Mathlib

set_option maxRecDepth 10000

/-! Embedding of the usewave/private-key-split secret-sharing core:
GF(2^8) arithmetic (src/gf256.js) and the key-sharing engine
(src/keySharing.ts). -/

/-- Typed error kinds for the failure paths of the engine; each constructor
corresponds to one `throw new Error(...)` site in the source. -/
inductive KeyError where
  | divisionByZero
  | needAtLeastTwoShares
  | invalidOrTamperedShares
  | incompatibleShareVersions
  | needAtLeastTwoExistingShares
  deriving DecidableEq, Repr

namespace GF256

/-- `GF256.PRIMITIVE_POLY = 0x11d` (src/gf256.js line 3). -/
def PRIMITIVE_POLY : Nat := 0x11d

/-- `GF256.multiplyWithoutTables` (src/gf256.js lines 29-45): Russian-peasant
shift-and-XOR multiplication modulo the primitive polynomial.  The JS loop
carries mutable `result`/`temp`; we carry them as a pair through a fold over
the 8 loop indices. -/
def multiplyWithoutTables (a b : Nat) : Nat :=
  ((List.range 8).foldl (fun (p : Nat × Nat) i =>
    let result := if a &&& (1 <<< i) != 0 then p.1 ^^^ p.2 else p.1
    let highBitSet := p.2 &&& 0x80 != 0
    let temp := (p.2 <<< 1) &&& 0xff
    let temp := if highBitSet then temp ^^^ (PRIMITIVE_POLY &&& 0xff) else temp
    (result, temp)) (0, b)).1

/-- `GF256.initLogTable` (src/gf256.js lines 8-16): walk the powers of the
generator 2, recording `table[x] = i`; the JS array of 256 zeros becomes a
`List.replicate`, the in-place store a `List.set`. -/
def initLogTable : List Nat :=
  ((List.range 255).foldl (fun (p : List Nat × Nat) i =>
    (p.1.set p.2 i, multiplyWithoutTables p.2 2)) (List.replicate 256 0, 1)).1

/-- `GF256.initExpTable` (src/gf256.js lines 18-27): `table[i]` = successive
powers of 2, with `table[255] = table[0]` wrap. -/
def initExpTable : List Nat :=
  let t := ((List.range 255).foldl (fun (p : List Nat × Nat) i =>
    (p.1.set i p.2, multiplyWithoutTables p.2 2)) (List.replicate 256 0, 1)).1
  t.set 255 (t.getD 0 0)

/-- `GF256.LOG_TABLE` (src/gf256.js line 5). -/
def LOG_TABLE : List Nat := initLogTable

/-- `GF256.EXP_TABLE` (src/gf256.js line 6). -/
def EXP_TABLE : List Nat := initExpTable

/-- `GF256.multiply` (src/gf256.js lines 47-58).  The JS wrapper unboxes
`Uint8Array` arguments and reboxes the result; the model works on the byte
values directly. -/
def multiply (a b : Nat) : Nat :=
  if a = 0 ∨ b = 0 then 0
  else EXP_TABLE.getD ((LOG_TABLE.getD a 0 + LOG_TABLE.getD b 0) % 255) 0

/-- `GF256.add` (src/gf256.js lines 60-64): bitwise XOR. -/
def add (a b : Nat) : Nat := a ^^^ b

/-- `GF256.subtract` (src/gf256.js lines 66-68): same as `add` in GF(256). -/
def subtract (a b : Nat) : Nat := add a b

/-- `GF256.pow` (src/gf256.js lines 70-78).  Note the base-zero test comes
first, so `pow 0 0 = 0` in the source. -/
def pow (base e : Nat) : Nat :=
  if base = 0 then 0
  else if e = 0 then 1
  else EXP_TABLE.getD ((LOG_TABLE.getD base 0 * e) % 255) 0

/-- `GF256.inverse` (src/gf256.js lines 80-88); `throw new Error("Division by
zero")` becomes the `divisionByZero` error. -/
def inverse (a : Nat) : Except KeyError Nat :=
  if a = 0 then .error .divisionByZero
  else if a = 1 then .ok 1
  else .ok (EXP_TABLE.getD ((255 - LOG_TABLE.getD a 0) % 255) 0)

end GF256

/-- The doubling step of the shift-and-XOR loop in
`GF256.multiplyWithoutTables`: shift left, mask to a byte, and reduce by the
low byte of the primitive polynomial when the high bit was set.  Used to
characterise the loop; not itself a source function. -/
def xtime (x : Nat) : Nat :=
  let t := (x <<< 1) &&& 0xff
  if x &&& 0x80 != 0 then t ^^^ (GF256.PRIMITIVE_POLY &&& 0xff) else t

/-- Closed form of `GF256.multiplyWithoutTables`: XOR, over the set bits `k`
of `a`, of the `k`-fold doubling of `b`.  Proof target, not a source
function. -/
def bitSum (a b : Nat) : Nat :=
  (List.range 8).foldl
    (fun acc k => if a &&& (1 <<< k) != 0 then acc ^^^ xtime^[k] b else acc) 0

/-- The loop body of `GF256.multiplyWithoutTables`, named so the fold can be
rewritten step by step; its body is byte-for-byte the lambda inside
`multiplyWithoutTables`. -/
def mwtStep (a : Nat) (p : Nat × Nat) (i : Nat) : Nat × Nat :=
  let result := if a &&& (1 <<< i) != 0 then p.1 ^^^ p.2 else p.1
  let highBitSet := p.2 &&& 0x80 != 0
  let temp := (p.2 <<< 1) &&& 0xff
  let temp := if highBitSet then temp ^^^ (GF256.PRIMITIVE_POLY &&& 0xff) else temp
  (result, temp)

/-- Literal value of `GF256.EXP_TABLE`, proved equal to the built
table; pointwise facts are decided against this shallow list. -/
def EXP_LIT : List Nat :=
  [1, 2, 4, 8, 16, 32, 64, 128, 29, 58, 116, 232, 205, 135, 19, 38, 76, 152, 45, 90, 180, 117,
  234, 201, 143, 3, 6, 12, 24, 48, 96, 192, 157, 39, 78, 156, 37, 74, 148, 53, 106, 212, 181,
  119, 238, 193, 159, 35, 70, 140, 5, 10, 20, 40, 80, 160, 93, 186, 105, 210, 185, 111, 222,
  161, 95, 190, 97, 194, 153, 47, 94, 188, 101, 202, 137, 15, 30, 60, 120, 240, 253, 231, 211,
  187, 107, 214, 177, 127, 254, 225, 223, 163, 91, 182, 113, 226, 217, 175, 67, 134, 17, 34,
  68, 136, 13, 26, 52, 104, 208, 189, 103, 206, 129, 31, 62, 124, 248, 237, 199, 147, 59, 118,
  236, 197, 151, 51, 102, 204, 133, 23, 46, 92, 184, 109, 218, 169, 79, 158, 33, 66, 132, 21,
  42, 84, 168, 77, 154, 41, 82, 164, 85, 170, 73, 146, 57, 114, 228, 213, 183, 115, 230, 209,
  191, 99, 198, 145, 63, 126, 252, 229, 215, 179, 123, 246, 241, 255, 227, 219, 171, 75, 150,
  49, 98, 196, 149, 55, 110, 220, 165, 87, 174, 65, 130, 25, 50, 100, 200, 141, 7, 14, 28, 56,
  112, 224, 221, 167, 83, 166, 81, 162, 89, 178, 121, 242, 249, 239, 195, 155, 43, 86, 172, 69,
  138, 9, 18, 36, 72, 144, 61, 122, 244, 245, 247, 243, 251, 235, 203, 139, 11, 22, 44, 88,
  176, 125, 250, 233, 207, 131, 27, 54, 108, 216, 173, 71, 142, 1]

/-- Literal value of `GF256.LOG_TABLE`, proved equal to the built
table; pointwise facts are decided against this shallow list. -/
def LOG_LIT : List Nat :=
  [0, 0, 1, 25, 2, 50, 26, 198, 3, 223, 51, 238, 27, 104, 199, 75, 4, 100, 224, 14, 52, 141,
  239, 129, 28, 193, 105, 248, 200, 8, 76, 113, 5, 138, 101, 47, 225, 36, 15, 33, 53, 147, 142,
  218, 240, 18, 130, 69, 29, 181, 194, 125, 106, 39, 249, 185, 201, 154, 9, 120, 77, 228, 114,
  166, 6, 191, 139, 98, 102, 221, 48, 253, 226, 152, 37, 179, 16, 145, 34, 136, 54, 208, 148,
  206, 143, 150, 219, 189, 241, 210, 19, 92, 131, 56, 70, 64, 30, 66, 182, 163, 195, 72, 126,
  110, 107, 58, 40, 84, 250, 133, 186, 61, 202, 94, 155, 159, 10, 21, 121, 43, 78, 212, 229,
  172, 115, 243, 167, 87, 7, 112, 192, 247, 140, 128, 99, 13, 103, 74, 222, 237, 49, 197, 254,
  24, 227, 165, 153, 119, 38, 184, 180, 124, 17, 68, 146, 217, 35, 32, 137, 46, 55, 63, 209,
  91, 149, 188, 207, 205, 144, 135, 151, 178, 220, 252, 190, 97, 242, 86, 211, 171, 20, 42, 93,
  158, 132, 60, 57, 83, 71, 109, 65, 162, 31, 45, 67, 216, 183, 123, 164, 118, 196, 23, 73,
  236, 127, 12, 111, 246, 108, 161, 59, 82, 41, 157, 85, 170, 251, 96, 134, 177, 187, 204, 62,
  90, 203, 89, 95, 176, 156, 169, 160, 81, 11, 245, 22, 235, 122, 117, 44, 215, 79, 174, 213,
  233, 230, 231, 173, 232, 116, 214, 244, 234, 168, 80, 88, 175]

/-- Share identities (src/types.ts): `"deviceShare" | "serverShare" |
"recoveryShare"`. -/
inductive ShareType where
  | deviceShare
  | serverShare
  | recoveryShare
  deriving DecidableEq

/-- Modelled from the spec: the value of the integrity tag.  The tag in the
source is a SHA-256 digest (external library code, not in the repository)
over the share's coordinate byte, payload and type string; the spec calls it
"a cryptographic digest (256-bit, collision-resistant) ... encoded
canonically".  It is modelled as an ideal collision-free digest: a value
determined by, and determining, exactly those three fields. -/
structure ShareDigest where
  x : Nat
  y : List Nat
  shareType : ShareType
  deriving DecidableEq

/-- `Share` (src/types.ts): the engine operates on raw byte sequences for
`y`; an absent hash (empty string in the source) is `none`. -/
structure Share where
  type : ShareType
  x : Nat
  y : List Nat
  version : Nat
  hash : Option ShareDigest
  deriving DecidableEq

instance : Inhabited Share := ⟨⟨.deviceShare, 0, [], 0, none⟩⟩

instance {ε α : Type} [DecidableEq ε] [DecidableEq α] : DecidableEq (Except ε α) := fun a b =>
  match a, b with
  | .ok x, .ok y =>
    if h : x = y then .isTrue (by rw [h]) else .isFalse (fun he => h (Except.ok.inj he))
  | .error e, .error f =>
    if h : e = f then .isTrue (by rw [h]) else .isFalse (fun he => h (Except.error.inj he))
  | .ok _, .error _ => .isFalse (fun he => Except.noConfusion he)
  | .error _, .ok _ => .isFalse (fun he => Except.noConfusion he)

namespace KeySharing

/-- `KeySharing.calculateShareHash` (src/keySharing.ts lines 10-16): digest
over `(x, y, type)`.  Modelled from the spec: SHA-256 is external, so the
digest is the ideal one (see `ShareDigest`). -/
def calculateShareHash (share : Share) : ShareDigest :=
  { x := share.x, y := share.y, shareType := share.type }

/-- `KeySharing.verifyShare` (src/keySharing.ts lines 59-66): false when no
tag is stored, otherwise compare the recomputed tag with the stored one.
The source compares with `crypto.timingSafeEqual` (external, constant-time);
on ideal digests, which all share one length, it is equality. -/
def verifyShare (share : Share) : Bool :=
  match share.hash with
  | none => false
  | some h => calculateShareHash share == h

/-- The inner coefficient loop of `KeySharing.split` (src/keySharing.ts lines
43-47): evaluate the polynomial given by `coefficients` at `x`, accumulating
`add(evaluation, multiply(coefficients[j], pow(x, j)))`. -/
def evaluatePolynomial (coefficients : List Nat) (x : Nat) : Nat :=
  coefficients.enum.foldl
    (fun evaluation jc => GF256.add evaluation (GF256.multiply jc.2 (GF256.pow x jc.1))) 0

/-- The `y` payload that `KeySharing.split` (src/keySharing.ts lines 27-51)
assembles for the share at coordinate `i`: byte `byteIndex` is the degree-1
polynomial `[secret byte, random byte]` evaluated at `i`.  The source fills
the three arrays byte-major; the model writes each complete array directly.
The per-byte draws from the secure random source are passed in as the
explicit list `rnd` (one fresh draw per byte position). -/
def splitShareY (privateKey rnd : List Nat) (i : Nat) : List Nat :=
  (List.range privateKey.length).map fun byteIndex =>
    evaluatePolynomial [privateKey.getD byteIndex 0, rnd.getD byteIndex 0] i

/-- `KeySharing.split` (src/keySharing.ts lines 18-57): three shares at
x = 1, 2, 3 with types device/server/recovery, `version = 1`, each stamped
with its integrity hash at the end. -/
def split (privateKey rnd : List Nat) : List Share :=
  let mk := fun (t : ShareType) (i : Nat) =>
    let base : Share :=
      { type := t, x := i, y := splitShareY privateKey rnd i, version := 1, hash := none }
    { base with hash := some (calculateShareHash base) }
  [mk .deviceShare 1, mk .serverShare 2, mk .recoveryShare 3]

/-- The Lagrange-interpolation double loop shared by
`KeySharing.reconstruct` (src/keySharing.ts lines 86-108, with `atX = 0`) and
`KeySharing.generateCompatibleShare` (lines 144-171, with `atX` the new
share's coordinate): for each point `i`, start from its `y` value and
multiply by `factor = multiply(subtract(atX, x_j), inverse(subtract(x_i,
x_j)))` for every `j ≠ i`, XOR-accumulating the terms.  The JS exception
thrown by `GF256.inverse` on a zero denominator propagates through the
`Except` monad. -/
def lagrangePoints (points : List (Nat × Nat)) (atX : Nat) : Except KeyError Nat :=
  points.enum.foldlM (fun result ip => do
    let term ← points.enum.foldlM (fun term jp =>
      if ip.1 ≠ jp.1 then do
        let numerator := GF256.subtract atX jp.2.1
        let denominator := GF256.subtract ip.2.1 jp.2.1
        let inv ← GF256.inverse denominator
        pure (GF256.multiply term (GF256.multiply numerator inv))
      else pure term) ip.2.2
    pure (GF256.add result term)) 0

/-- One byte position of the interpolation: the `(x, y[byteIndex])` pairs of
the shares, interpolated at `atX`. -/
def lagrangeByte (shares : List Share) (atX byteIndex : Nat) : Except KeyError Nat :=
  lagrangePoints (shares.map fun s => (s.x, s.y.getD byteIndex 0)) atX

/-- The arithmetic stage of `KeySharing.reconstruct` (src/keySharing.ts lines
83-110): interpolate every byte position of the first share's payload length
at x = 0. -/
def interpolateSecret (shares : List Share) : Except KeyError (List Nat) :=
  (List.range (shares.headD default).y.length).mapM (lagrangeByte shares 0)

/-- `KeySharing.reconstruct` (src/keySharing.ts lines 68-111): the three
precondition checks in source order, then the interpolation.  The JS
`new Set(versions).size` is the number of distinct versions, i.e. the length
of the deduplicated version list. -/
def reconstruct (shares : List Share) : Except KeyError (List Nat) :=
  if shares.length < 2 then .error .needAtLeastTwoShares
  else if 0 < (shares.filter fun s => !verifyShare s).length then
    .error .invalidOrTamperedShares
  else if 1 < ((shares.map fun s => s.version).dedup).length then
    .error .incompatibleShareVersions
  else interpolateSecret shares

/-- `KeySharing.generateCompatibleShare` (src/keySharing.ts lines 113-175):
same precondition checks as `reconstruct`, then interpolate each of
`privateKey.length` byte positions at the target type's fixed coordinate and
stamp the new share with the inputs' version and a fresh hash. -/
def generateCompatibleShare (privateKey : List Nat) (existingShares : List Share)
    (shareType : ShareType) : Except KeyError Share :=
  if existingShares.length < 2 then .error .needAtLeastTwoExistingShares
  else if 0 < (existingShares.filter fun s => !verifyShare s).length then
    .error .invalidOrTamperedShares
  else if 1 < ((existingShares.map fun s => s.version).dedup).length then
    .error .incompatibleShareVersions
  else do
    let x := if shareType = ShareType.deviceShare then 1
      else if shareType = ShareType.serverShare then 2 else 3
    let y ← (List.range privateKey.length).mapM (lagrangeByte existingShares x)
    let newShare : Share :=
      { type := shareType, x := x, y := y,
        version := (existingShares.headD default).version, hash := none }
    pure { newShare with hash := some (calculateShareHash newShare) }

end KeySharing

/-! ### Bit-level characterisation of the shift-and-XOR multiplication -/

set_option maxHeartbeats 4000000 in
theorem exp_table_lit : GF256.EXP_TABLE = EXP_LIT := by decide

set_option maxHeartbeats 4000000 in
theorem log_table_lit : GF256.LOG_TABLE = LOG_LIT := by decide

theorem multiply_lit_eq (a b : Nat) :
    GF256.multiply a b
      = (if a = 0 ∨ b = 0 then 0
         else EXP_LIT.getD ((LOG_LIT.getD a 0 + LOG_LIT.getD b 0) % 255) 0) := by
  unfold GF256.multiply
  rw [exp_table_lit, log_table_lit]

theorem pow_lit_eq (base e : Nat) :
    GF256.pow base e
      = (if base = 0 then 0
         else if e = 0 then 1
         else EXP_LIT.getD ((LOG_LIT.getD base 0 * e) % 255) 0) := by
  unfold GF256.pow
  rw [exp_table_lit, log_table_lit]

theorem inverse_lit_eq (a : Nat) :
    GF256.inverse a
      = (if a = 0 then .error .divisionByZero
         else if a = 1 then .ok 1
         else .ok (EXP_LIT.getD ((255 - LOG_LIT.getD a 0) % 255) 0)) := by
  unfold GF256.inverse
  rw [exp_table_lit, log_table_lit]

theorem xtime_zero : xtime 0 = 0 := rfl

theorem shiftLeft_one_xor (x y : Nat) : (x ^^^ y) <<< 1 = (x <<< 1) ^^^ (y <<< 1) := by
  apply Nat.eq_of_testBit_eq
  intro i
  simp only [Nat.testBit_shiftLeft, Nat.testBit_xor]
  cases h : decide (i ≥ 1) <;> simp [h]

theorem and_two_pow_eq (x k : Nat) : x &&& 2 ^ k = if x.testBit k then 2 ^ k else 0 := by
  apply Nat.eq_of_testBit_eq
  intro i
  simp only [Nat.testBit_and]
  by_cases hx : x.testBit k
  · by_cases hik : k = i
    · subst hik; simp [hx, Nat.testBit_two_pow]
    · simp [hx, hik, Nat.testBit_two_pow]
  · by_cases hik : k = i
    · subst hik; simp [hx, Nat.zero_testBit]
    · simp [hx, hik, Nat.testBit_two_pow, Nat.zero_testBit]

theorem and_shift_ne_zero (x k : Nat) : (x &&& (1 <<< k) != 0) = x.testBit k := by
  rw [Nat.one_shiftLeft, and_two_pow_eq]
  cases hx : x.testBit k <;> simp [hx, Nat.pos_iff_ne_zero.mp (Nat.two_pow_pos k)]

theorem and_128_ne_zero (x : Nat) : (x &&& 0x80 != 0) = x.testBit 7 := by
  have h : (0x80 : Nat) = 1 <<< 7 := by decide
  rw [h, and_shift_ne_zero]

theorem xor_cancel_pair (a b c : Nat) : (a ^^^ c) ^^^ (b ^^^ c) = a ^^^ b := by
  rw [Nat.xor_assoc, ← Nat.xor_assoc c b c, Nat.xor_comm c b, Nat.xor_assoc b c c,
    Nat.xor_self, Nat.xor_zero]

theorem xor_swap_pairs (a b c d : Nat) : (a ^^^ b) ^^^ (c ^^^ d) = (a ^^^ c) ^^^ (b ^^^ d) := by
  rw [Nat.xor_assoc a b _, ← Nat.xor_assoc b c d, Nat.xor_comm b c, Nat.xor_assoc c b d,
    ← Nat.xor_assoc a c _]

theorem xor_left_comm (a b c : Nat) : a ^^^ (b ^^^ c) = b ^^^ (a ^^^ c) := by
  rw [← Nat.xor_assoc, Nat.xor_comm a b, Nat.xor_assoc]

theorem xtime_linear (x y : Nat) : xtime (x ^^^ y) = xtime x ^^^ xtime y := by
  simp only [xtime, and_128_ne_zero, Nat.testBit_xor]
  simp only [shiftLeft_one_xor, Nat.and_xor_distrib_right]
  cases hx : x.testBit 7 <;> cases hy : y.testBit 7 <;> simp [hx, hy]
  · rw [Nat.xor_assoc]
  · rw [Nat.xor_assoc, Nat.xor_assoc,
      Nat.xor_comm (y <<< 1 &&& 255) (GF256.PRIMITIVE_POLY &&& 255)]
  · exact (xor_cancel_pair _ _ _).symm

theorem xtime_iterate_zero (j : Nat) : xtime^[j] 0 = 0 := by
  induction j with
  | zero => rfl
  | succ n ih => rw [Function.iterate_succ_apply, xtime_zero, ih]

theorem xtime_iterate_linear (j x y : Nat) :
    xtime^[j] (x ^^^ y) = xtime^[j] x ^^^ xtime^[j] y := by
  induction j generalizing x y with
  | zero => rfl
  | succ n ih =>
    rw [Function.iterate_succ_apply, Function.iterate_succ_apply, Function.iterate_succ_apply,
      xtime_linear, ih]

theorem foldl_keep {α : Type} (l : List α) (init : Nat) :
    l.foldl (fun acc _ => acc) init = init := by
  induction l with
  | nil => rfl
  | cons a t ih => rw [List.foldl_cons]; exact ih

theorem mwtStep_eq (a res temp i : Nat) :
    mwtStep a (res, temp) i
      = (if a &&& (1 <<< i) != 0 then res ^^^ temp else res, xtime temp) := rfl

theorem mwt_as_step (a b : Nat) :
    GF256.multiplyWithoutTables a b = ((List.range 8).foldl (mwtStep a) (0, b)).1 := rfl

theorem mwt_loop (a : Nat) : ∀ (n s res temp : Nat),
    (List.range' s n).foldl (mwtStep a) (res, temp)
    = ((List.range' s n).foldl
        (fun acc k => if a &&& (1 <<< k) != 0 then acc ^^^ xtime^[k - s] temp else acc) res,
       xtime^[n] temp) := by
  intro n
  induction n with
  | zero => intro s res temp; rfl
  | succ m ih =>
    intro s res temp
    rw [List.range'_succ, List.foldl_cons, List.foldl_cons, mwtStep_eq]
    rw [ih (s + 1) (if a &&& (1 <<< s) != 0 then res ^^^ temp else res) (xtime temp)]
    rw [Prod.mk.injEq]
    constructor
    · rw [Nat.sub_self, Function.iterate_zero_apply]
      apply List.foldl_ext
      intro acc k hk
      have hks : s + 1 ≤ k := (List.mem_range'_1.mp hk).1
      rw [show k - s = (k - (s + 1)) + 1 by omega, Function.iterate_succ_apply]
    · exact (Function.iterate_succ_apply xtime m temp).symm

theorem mwt_eq_bitSum (a b : Nat) : GF256.multiplyWithoutTables a b = bitSum a b := by
  rw [mwt_as_step, bitSum]
  simp only [List.range_eq_range']
  rw [mwt_loop a 8 0 0 b]
  apply List.foldl_ext
  intro acc k _
  rw [Nat.sub_zero]

theorem foldl_if_xor (f : Nat → Nat) (p q : Nat → Bool) (l : List Nat) :
    ∀ acc1 acc2 : Nat,
      l.foldl (fun acc k => if p k ^^ q k then acc ^^^ f k else acc) (acc1 ^^^ acc2)
        = l.foldl (fun acc k => if p k then acc ^^^ f k else acc) acc1
          ^^^ l.foldl (fun acc k => if q k then acc ^^^ f k else acc) acc2 := by
  induction l with
  | nil => intro a b; rfl
  | cons k t ih =>
    intro acc1 acc2
    simp only [List.foldl_cons]
    cases hp : p k <;> cases hq : q k <;> simp only [hp, hq, Bool.true_xor, Bool.false_xor,
      Bool.not_true, Bool.not_false, if_true, if_false, Bool.false_eq_true, ite_true, ite_false]
    · exact ih acc1 acc2
    · rw [Nat.xor_assoc]; exact ih acc1 (acc2 ^^^ f k)
    · rw [Nat.xor_assoc, Nat.xor_comm acc2 (f k), ← Nat.xor_assoc]
      exact ih (acc1 ^^^ f k) acc2
    · rw [show acc1 ^^^ acc2 = (acc1 ^^^ f k) ^^^ (acc2 ^^^ f k) from (xor_cancel_pair _ _ _).symm]
      exact ih (acc1 ^^^ f k) (acc2 ^^^ f k)

theorem bitSum_xor_left (a1 a2 b : Nat) :
    bitSum (a1 ^^^ a2) b = bitSum a1 b ^^^ bitSum a2 b := by
  unfold bitSum
  simp only [and_shift_ne_zero, Nat.testBit_xor]
  exact foldl_if_xor (fun k => xtime^[k] b) a1.testBit a2.testBit (List.range 8) 0 0

theorem bitSum_zero_left (b : Nat) : bitSum 0 b = 0 := rfl

theorem bitSum_zero_right (a : Nat) : bitSum a 0 = 0 := by
  unfold bitSum
  have h : ∀ acc : Nat, ∀ k ∈ List.range 8,
      (if a &&& (1 <<< k) != 0 then acc ^^^ xtime^[k] 0 else acc) = acc := by
    intro acc k _
    rw [xtime_iterate_zero, Nat.xor_zero, ite_self]
  rw [List.foldl_ext _ _ 0 h, foldl_keep]

theorem foldl_if_comp (g f : Nat → Nat) (p : Nat → Bool)
    (hglin : ∀ x y, g (x ^^^ y) = g x ^^^ g y) (l : List Nat) :
    ∀ acc : Nat,
      l.foldl (fun acc k => if p k then acc ^^^ g (f k) else acc) (g acc)
        = g (l.foldl (fun acc k => if p k then acc ^^^ f k else acc) acc) := by
  induction l with
  | nil => intro acc; rfl
  | cons k t ih =>
    intro acc
    simp only [List.foldl_cons]
    cases hp : p k <;> simp only [hp, if_true, if_false, Bool.false_eq_true, ite_true, ite_false]
    · exact ih acc
    · rw [← hglin]; exact ih (acc ^^^ f k)

theorem bitSum_iterate (a j b : Nat) : bitSum a (xtime^[j] b) = xtime^[j] (bitSum a b) := by
  unfold bitSum
  have h : ∀ acc : Nat, ∀ k ∈ List.range 8,
      (if a &&& (1 <<< k) != 0 then acc ^^^ xtime^[k] (xtime^[j] b) else acc)
        = (if a &&& (1 <<< k) != 0 then acc ^^^ xtime^[j] (xtime^[k] b) else acc) := by
    intro acc k _
    rw [← Function.iterate_add_apply, ← Function.iterate_add_apply, Nat.add_comm]
  rw [List.foldl_ext _ _ 0 h]
  have hmain := foldl_if_comp (xtime^[j]) (fun k => xtime^[k] b)
    (fun k => a &&& (1 <<< k) != 0)
    (fun x y => xtime_iterate_linear j x y) (List.range 8) 0
  rw [xtime_iterate_zero] at hmain
  exact hmain

theorem bitSum_one : ∀ a < 256, bitSum a 1 = a := by decide

theorem exp_getD : ∀ k < 255, GF256.EXP_TABLE.getD k 0 = xtime^[k] 1 := by
  simp only [exp_table_lit]
  decide

theorem log_exp : ∀ a < 256, 0 < a →
    GF256.LOG_TABLE.getD a 0 < 255
      ∧ GF256.EXP_TABLE.getD (GF256.LOG_TABLE.getD a 0) 0 = a := by
  simp only [exp_table_lit, log_table_lit]
  decide

theorem log_gpow : ∀ k < 255, GF256.LOG_TABLE.getD (xtime^[k] 1) 0 = k := by
  simp only [log_table_lit]
  decide

theorem gpow_pos_lt : ∀ k < 255, 0 < xtime^[k] 1 ∧ xtime^[k] 1 < 256 := by decide

set_option maxHeartbeats 2000000 in
theorem xtime_cycle_aux : ∀ k < 256, xtime^[k] 1 = xtime^[k % 255] 1 := by decide

theorem xtime_cycle : xtime^[255] 1 = 1 := xtime_cycle_aux 255 (by omega)

theorem log_one : GF256.LOG_TABLE.getD 1 0 = 0 := by
  rw [log_table_lit]
  decide

theorem gpow_mod (n : Nat) : xtime^[n] 1 = xtime^[n % 255] 1 := by
  have hq : ∀ q, xtime^[255 * q] 1 = 1 := by
    intro q
    induction q with
    | zero => rfl
    | succ m ih => rw [Nat.mul_succ, Function.iterate_add_apply, xtime_cycle, ih]
  conv_lhs => rw [← Nat.mod_add_div n 255]
  rw [Function.iterate_add_apply, hq]

/-! ### Field laws of the table-based operations -/

namespace GF256

theorem multiply_zero_left (b : Nat) : multiply 0 b = 0 := by simp [multiply]

theorem multiply_zero_right (a : Nat) : multiply a 0 = 0 := by simp [multiply]

theorem multiply_nz (a b : Nat) (ha0 : a ≠ 0) (hb0 : b ≠ 0) :
    multiply a b = xtime^[(LOG_TABLE.getD a 0 + LOG_TABLE.getD b 0) % 255] 1 := by
  unfold multiply
  rw [if_neg (by simp [ha0, hb0])]
  exact exp_getD _ (Nat.mod_lt _ (by norm_num))

theorem mwt_nz (a b : Nat) (ha0 : a ≠ 0) (hb0 : b ≠ 0) (ha : a < 256) (hb : b < 256) :
    multiplyWithoutTables a b
      = xtime^[(LOG_TABLE.getD a 0 + LOG_TABLE.getD b 0) % 255] 1 := by
  obtain ⟨hla, hea⟩ := log_exp a ha (Nat.pos_of_ne_zero ha0)
  obtain ⟨hlb, heb⟩ := log_exp b hb (Nat.pos_of_ne_zero hb0)
  have ha2 : xtime^[LOG_TABLE.getD a 0] 1 = a := by rw [← exp_getD _ hla]; exact hea
  have hb2 : xtime^[LOG_TABLE.getD b 0] 1 = b := by rw [← exp_getD _ hlb]; exact heb
  rw [mwt_eq_bitSum]
  conv_lhs => rw [← hb2]
  rw [bitSum_iterate, bitSum_one a ha]
  conv_lhs => rw [← ha2]
  rw [← Function.iterate_add_apply, Nat.add_comm, gpow_mod]

theorem multiply_lt (a b : Nat) : multiply a b < 256 := by
  by_cases h : a = 0 ∨ b = 0
  · rw [multiply, if_pos h]; norm_num
  · push_neg at h
    rw [multiply_nz a b h.1 h.2]
    exact (gpow_pos_lt _ (Nat.mod_lt _ (by norm_num))).2

theorem multiply_ne_zero (a b : Nat) (ha0 : a ≠ 0) (hb0 : b ≠ 0) : multiply a b ≠ 0 := by
  rw [multiply_nz a b ha0 hb0]
  exact Nat.pos_iff_ne_zero.mp (gpow_pos_lt _ (Nat.mod_lt _ (by norm_num))).1

theorem log_multiply (a b : Nat) (ha0 : a ≠ 0) (hb0 : b ≠ 0) :
    LOG_TABLE.getD (multiply a b) 0
      = (LOG_TABLE.getD a 0 + LOG_TABLE.getD b 0) % 255 := by
  rw [multiply_nz a b ha0 hb0]
  exact log_gpow _ (Nat.mod_lt _ (by norm_num))

theorem multiply_comm (a b : Nat) : multiply a b = multiply b a := by
  by_cases h : a = 0 ∨ b = 0
  · rw [multiply, if_pos h, multiply, if_pos h.symm]
  · rw [multiply, if_neg h, multiply, if_neg (fun hc => h hc.symm), Nat.add_comm]

theorem multiply_one (a : Nat) (ha : a < 256) : multiply a 1 = a := by
  by_cases ha0 : a = 0
  · subst ha0; exact multiply_zero_left 1
  · obtain ⟨hla, hea⟩ := log_exp a ha (Nat.pos_of_ne_zero ha0)
    rw [multiply_nz a 1 ha0 one_ne_zero, log_one, Nat.add_zero, Nat.mod_eq_of_lt hla,
      ← exp_getD _ hla]
    exact hea

theorem multiply_assoc (a b c : Nat) (ha0 : a ≠ 0) (hb0 : b ≠ 0) (hc0 : c ≠ 0) :
    multiply (multiply a b) c = multiply a (multiply b c) := by
  have hab0 := multiply_ne_zero a b ha0 hb0
  have hbc0 := multiply_ne_zero b c hb0 hc0
  rw [multiply_nz _ c hab0 hc0, multiply_nz a _ ha0 hbc0, log_multiply a b ha0 hb0,
    log_multiply b c hb0 hc0, Nat.mod_add_mod, Nat.add_mod_mod, Nat.add_assoc]

theorem multiply_assoc' (a b c : Nat) :
    multiply (multiply a b) c = multiply a (multiply b c) := by
  by_cases ha0 : a = 0
  · subst ha0; rw [multiply_zero_left, multiply_zero_left, multiply_zero_left]
  · by_cases hb0 : b = 0
    · subst hb0
      rw [multiply_zero_right, multiply_zero_left, multiply_zero_right]
    · by_cases hc0 : c = 0
      · subst hc0
        rw [multiply_zero_right, multiply_zero_right, multiply_zero_right]
      · exact multiply_assoc a b c ha0 hb0 hc0

theorem xor_lt_256 {a b : Nat} (ha : a < 256) (hb : b < 256) : a ^^^ b < 256 :=
  Nat.xor_lt_two_pow (n := 8) ha hb

theorem multiply_eq_mwt : ∀ a, a < 256 → ∀ b, b < 256 →
    multiply a b = multiplyWithoutTables a b := by
  intro a ha b hb
  by_cases ha0 : a = 0
  · subst ha0
    rw [multiply_zero_left, mwt_eq_bitSum, bitSum_zero_left]
  · by_cases hb0 : b = 0
    · subst hb0
      rw [multiply_zero_right, mwt_eq_bitSum, bitSum_zero_right]
    · rw [multiply_nz a b ha0 hb0, mwt_nz a b ha0 hb0 ha hb]

theorem multiply_xor_left (a b c : Nat) (ha : a < 256) (hb : b < 256) (hc : c < 256) :
    multiply (a ^^^ b) c = multiply a c ^^^ multiply b c := by
  rw [multiply_eq_mwt _ (xor_lt_256 ha hb) _ hc, multiply_eq_mwt _ ha _ hc,
    multiply_eq_mwt _ hb _ hc, mwt_eq_bitSum, mwt_eq_bitSum, mwt_eq_bitSum,
    bitSum_xor_left]

theorem multiply_xor_right (a b c : Nat) (ha : a < 256) (hb : b < 256) (hc : c < 256) :
    multiply a (b ^^^ c) = multiply a b ^^^ multiply a c := by
  rw [multiply_comm a (b ^^^ c), multiply_xor_left b c a hb hc ha, multiply_comm b a,
    multiply_comm c a]

end GF256

theorem lag2_unfold (x1 x2 y1 y2 atX i1 i2 : Nat)
    (h1 : GF256.inverse (GF256.subtract x1 x2) = .ok i1)
    (h2 : GF256.inverse (GF256.subtract x2 x1) = .ok i2) :
    KeySharing.lagrangePoints [(x1, y1), (x2, y2)] atX
      = .ok (GF256.add (GF256.add 0
          (GF256.multiply y1 (GF256.multiply (GF256.subtract atX x2) i1)))
          (GF256.multiply y2 (GF256.multiply (GF256.subtract atX x1) i2))) := by
  simp [KeySharing.lagrangePoints, List.foldlM, List.enum, List.enumFrom, h1, h2,
    Bind.bind, Except.bind, Pure.pure, Except.pure]

theorem lag3_unfold (x1 x2 x3 y1 y2 y3 atX i12 i13 i21 i23 i31 i32 : Nat)
    (h12 : GF256.inverse (GF256.subtract x1 x2) = .ok i12)
    (h13 : GF256.inverse (GF256.subtract x1 x3) = .ok i13)
    (h21 : GF256.inverse (GF256.subtract x2 x1) = .ok i21)
    (h23 : GF256.inverse (GF256.subtract x2 x3) = .ok i23)
    (h31 : GF256.inverse (GF256.subtract x3 x1) = .ok i31)
    (h32 : GF256.inverse (GF256.subtract x3 x2) = .ok i32) :
    KeySharing.lagrangePoints [(x1, y1), (x2, y2), (x3, y3)] atX
      = .ok (GF256.add (GF256.add (GF256.add 0
          (GF256.multiply (GF256.multiply y1 (GF256.multiply (GF256.subtract atX x2) i12))
            (GF256.multiply (GF256.subtract atX x3) i13)))
          (GF256.multiply (GF256.multiply y2 (GF256.multiply (GF256.subtract atX x1) i21))
            (GF256.multiply (GF256.subtract atX x3) i23)))
          (GF256.multiply (GF256.multiply y3 (GF256.multiply (GF256.subtract atX x1) i31))
            (GF256.multiply (GF256.subtract atX x2) i32))) := by
  simp [KeySharing.lagrangePoints, List.foldlM, List.enum, List.enumFrom,
    h12, h13, h21, h23, h31, h32, Bind.bind, Except.bind, Pure.pure, Except.pure]

theorem interp_two (s r x1 x2 c1 c2 t : Nat)
    (hs : s < 256) (hr : r < 256)
    (hc1 : c1 < 256) (hc2 : c2 < 256)
    (hsum : c1 ^^^ c2 = 1) (hxc : GF256.multiply x1 c1 ^^^ GF256.multiply x2 c2 = t) :
    GF256.multiply (s ^^^ GF256.multiply r x1) c1
      ^^^ GF256.multiply (s ^^^ GF256.multiply r x2) c2
      = s ^^^ GF256.multiply r t := by
  rw [GF256.multiply_xor_left s _ c1 hs (GF256.multiply_lt r x1) hc1,
    GF256.multiply_xor_left s _ c2 hs (GF256.multiply_lt r x2) hc2,
    xor_swap_pairs,
    ← GF256.multiply_xor_right s c1 c2 hs hc1 hc2, hsum,
    GF256.multiply_one s hs,
    GF256.multiply_assoc' r x1 c1, GF256.multiply_assoc' r x2 c2,
    ← GF256.multiply_xor_right r _ _ hr (GF256.multiply_lt x1 c1) (GF256.multiply_lt x2 c2),
    hxc]

theorem interp_three (s r x1 x2 x3 c1 c2 c3 t : Nat)
    (hs : s < 256) (hr : r < 256)
    (hc1 : c1 < 256) (hc2 : c2 < 256) (hc3 : c3 < 256)
    (hsum : (c1 ^^^ c2) ^^^ c3 = 1)
    (hxc : (GF256.multiply x1 c1 ^^^ GF256.multiply x2 c2) ^^^ GF256.multiply x3 c3 = t) :
    (GF256.multiply (s ^^^ GF256.multiply r x1) c1
      ^^^ GF256.multiply (s ^^^ GF256.multiply r x2) c2)
      ^^^ GF256.multiply (s ^^^ GF256.multiply r x3) c3
      = s ^^^ GF256.multiply r t := by
  rw [GF256.multiply_xor_left s _ c1 hs (GF256.multiply_lt r x1) hc1,
    GF256.multiply_xor_left s _ c2 hs (GF256.multiply_lt r x2) hc2,
    GF256.multiply_xor_left s _ c3 hs (GF256.multiply_lt r x3) hc3,
    xor_swap_pairs (GF256.multiply s c1) (GF256.multiply (GF256.multiply r x1) c1)
      (GF256.multiply s c2) (GF256.multiply (GF256.multiply r x2) c2),
    xor_swap_pairs (GF256.multiply s c1 ^^^ GF256.multiply s c2)
      (GF256.multiply (GF256.multiply r x1) c1 ^^^ GF256.multiply (GF256.multiply r x2) c2)
      (GF256.multiply s c3) (GF256.multiply (GF256.multiply r x3) c3),
    ← GF256.multiply_xor_right s c1 c2 hs hc1 hc2,
    ← GF256.multiply_xor_right s (c1 ^^^ c2) c3 hs (GF256.xor_lt_256 hc1 hc2) hc3,
    hsum, GF256.multiply_one s hs,
    GF256.multiply_assoc' r x1 c1, GF256.multiply_assoc' r x2 c2,
    GF256.multiply_assoc' r x3 c3,
    ← GF256.multiply_xor_right r _ _ hr (GF256.multiply_lt x1 c1) (GF256.multiply_lt x2 c2),
    ← GF256.multiply_xor_right r _ _ hr
      (GF256.xor_lt_256 (GF256.multiply_lt x1 c1) (GF256.multiply_lt x2 c2))
      (GF256.multiply_lt x3 c3),
    hxc]

theorem evalPoly_pair (s r x : Nat) :
    KeySharing.evaluatePolynomial [s, r] x
      = GF256.add (GF256.add 0 (GF256.multiply s (GF256.pow x 0)))
          (GF256.multiply r (GF256.pow x 1)) := rfl

theorem evalPoly_x (x s r : Nat) (hs : s < 256)
    (hpow0 : GF256.pow x 0 = 1) (hpow1 : GF256.pow x 1 = x) :
    KeySharing.evaluatePolynomial [s, r] x = s ^^^ GF256.multiply r x := by
  rw [evalPoly_pair, hpow0, hpow1, GF256.multiply_one s hs]
  simp [GF256.add]

theorem lagrange_pair_eval (x1 x2 atX t s r i1 i2 : Nat)
    (hs : s < 256) (hr : r < 256)
    (hi1 : GF256.inverse (GF256.subtract x1 x2) = .ok i1)
    (hi2 : GF256.inverse (GF256.subtract x2 x1) = .ok i2)
    (hp01 : GF256.pow x1 0 = 1) (hp11 : GF256.pow x1 1 = x1)
    (hp02 : GF256.pow x2 0 = 1) (hp12 : GF256.pow x2 1 = x2)
    (hsum : GF256.multiply (GF256.subtract atX x2) i1
        ^^^ GF256.multiply (GF256.subtract atX x1) i2 = 1)
    (hxc : GF256.multiply x1 (GF256.multiply (GF256.subtract atX x2) i1)
        ^^^ GF256.multiply x2 (GF256.multiply (GF256.subtract atX x1) i2) = t) :
    KeySharing.lagrangePoints
      [(x1, KeySharing.evaluatePolynomial [s, r] x1),
       (x2, KeySharing.evaluatePolynomial [s, r] x2)] atX
      = .ok (s ^^^ GF256.multiply r t) := by
  rw [lag2_unfold x1 x2 _ _ atX i1 i2 hi1 hi2,
    evalPoly_x x1 s r hs hp01 hp11, evalPoly_x x2 s r hs hp02 hp12]
  simp only [GF256.add, Nat.zero_xor]
  rw [interp_two s r x1 x2 _ _ t hs hr (GF256.multiply_lt _ _) (GF256.multiply_lt _ _)
    hsum hxc]

theorem lagrange_triple_eval (x1 x2 x3 atX t s r i12 i13 i21 i23 i31 i32 : Nat)
    (hs : s < 256) (hr : r < 256)
    (h12 : GF256.inverse (GF256.subtract x1 x2) = .ok i12)
    (h13 : GF256.inverse (GF256.subtract x1 x3) = .ok i13)
    (h21 : GF256.inverse (GF256.subtract x2 x1) = .ok i21)
    (h23 : GF256.inverse (GF256.subtract x2 x3) = .ok i23)
    (h31 : GF256.inverse (GF256.subtract x3 x1) = .ok i31)
    (h32 : GF256.inverse (GF256.subtract x3 x2) = .ok i32)
    (hp01 : GF256.pow x1 0 = 1) (hp11 : GF256.pow x1 1 = x1)
    (hp02 : GF256.pow x2 0 = 1) (hp12 : GF256.pow x2 1 = x2)
    (hp03 : GF256.pow x3 0 = 1) (hp13 : GF256.pow x3 1 = x3)
    (hsum : (GF256.multiply (GF256.multiply (GF256.subtract atX x2) i12)
          (GF256.multiply (GF256.subtract atX x3) i13)
        ^^^ GF256.multiply (GF256.multiply (GF256.subtract atX x1) i21)
          (GF256.multiply (GF256.subtract atX x3) i23))
        ^^^ GF256.multiply (GF256.multiply (GF256.subtract atX x1) i31)
          (GF256.multiply (GF256.subtract atX x2) i32) = 1)
    (hxc : (GF256.multiply x1 (GF256.multiply (GF256.multiply (GF256.subtract atX x2) i12)
          (GF256.multiply (GF256.subtract atX x3) i13))
        ^^^ GF256.multiply x2 (GF256.multiply (GF256.multiply (GF256.subtract atX x1) i21)
          (GF256.multiply (GF256.subtract atX x3) i23)))
        ^^^ GF256.multiply x3 (GF256.multiply (GF256.multiply (GF256.subtract atX x1) i31)
          (GF256.multiply (GF256.subtract atX x2) i32)) = t) :
    KeySharing.lagrangePoints
      [(x1, KeySharing.evaluatePolynomial [s, r] x1),
       (x2, KeySharing.evaluatePolynomial [s, r] x2),
       (x3, KeySharing.evaluatePolynomial [s, r] x3)] atX
      = .ok (s ^^^ GF256.multiply r t) := by
  rw [lag3_unfold x1 x2 x3 _ _ _ atX i12 i13 i21 i23 i31 i32 h12 h13 h21 h23 h31 h32,
    evalPoly_x x1 s r hs hp01 hp11, evalPoly_x x2 s r hs hp02 hp12,
    evalPoly_x x3 s r hs hp03 hp13]
  simp only [GF256.add, Nat.zero_xor]
  rw [GF256.multiply_assoc' (s ^^^ GF256.multiply r x1),
    GF256.multiply_assoc' (s ^^^ GF256.multiply r x2),
    GF256.multiply_assoc' (s ^^^ GF256.multiply r x3)]
  rw [interp_three s r x1 x2 x3 _ _ _ t hs hr (GF256.multiply_lt _ _) (GF256.multiply_lt _ _)
    (GF256.multiply_lt _ _) hsum hxc]

theorem reconByte_12 (s r : Nat) (hs : s < 256) (hr : r < 256) :
    KeySharing.lagrangePoints
      [(1, KeySharing.evaluatePolynomial [s, r] 1),
       (2, KeySharing.evaluatePolynomial [s, r] 2)] 0 = .ok s := by
  have h := lagrange_pair_eval 1 2 0 0 s r _ _ hs hr rfl rfl rfl rfl rfl rfl
    (by simp only [multiply_lit_eq, exp_table_lit, log_table_lit]; decide)
    (by simp only [multiply_lit_eq, exp_table_lit, log_table_lit]; decide)
  rw [GF256.multiply_zero_right, Nat.xor_zero] at h
  exact h

theorem reconByte_21 (s r : Nat) (hs : s < 256) (hr : r < 256) :
    KeySharing.lagrangePoints
      [(2, KeySharing.evaluatePolynomial [s, r] 2),
       (1, KeySharing.evaluatePolynomial [s, r] 1)] 0 = .ok s := by
  have h := lagrange_pair_eval 2 1 0 0 s r _ _ hs hr rfl rfl rfl rfl rfl rfl
    (by simp only [multiply_lit_eq, exp_table_lit, log_table_lit]; decide)
    (by simp only [multiply_lit_eq, exp_table_lit, log_table_lit]; decide)
  rw [GF256.multiply_zero_right, Nat.xor_zero] at h
  exact h

theorem reconByte_13 (s r : Nat) (hs : s < 256) (hr : r < 256) :
    KeySharing.lagrangePoints
      [(1, KeySharing.evaluatePolynomial [s, r] 1),
       (3, KeySharing.evaluatePolynomial [s, r] 3)] 0 = .ok s := by
  have h := lagrange_pair_eval 1 3 0 0 s r _ _ hs hr rfl rfl rfl rfl rfl rfl
    (by simp only [multiply_lit_eq, exp_table_lit, log_table_lit]; decide)
    (by simp only [multiply_lit_eq, exp_table_lit, log_table_lit]; decide)
  rw [GF256.multiply_zero_right, Nat.xor_zero] at h
  exact h

theorem reconByte_31 (s r : Nat) (hs : s < 256) (hr : r < 256) :
    KeySharing.lagrangePoints
      [(3, KeySharing.evaluatePolynomial [s, r] 3),
       (1, KeySharing.evaluatePolynomial [s, r] 1)] 0 = .ok s := by
  have h := lagrange_pair_eval 3 1 0 0 s r _ _ hs hr rfl rfl rfl rfl rfl rfl
    (by simp only [multiply_lit_eq, exp_table_lit, log_table_lit]; decide)
    (by simp only [multiply_lit_eq, exp_table_lit, log_table_lit]; decide)
  rw [GF256.multiply_zero_right, Nat.xor_zero] at h
  exact h

theorem reconByte_23 (s r : Nat) (hs : s < 256) (hr : r < 256) :
    KeySharing.lagrangePoints
      [(2, KeySharing.evaluatePolynomial [s, r] 2),
       (3, KeySharing.evaluatePolynomial [s, r] 3)] 0 = .ok s := by
  have h := lagrange_pair_eval 2 3 0 0 s r _ _ hs hr rfl rfl rfl rfl rfl rfl
    (by simp only [multiply_lit_eq, exp_table_lit, log_table_lit]; decide)
    (by simp only [multiply_lit_eq, exp_table_lit, log_table_lit]; decide)
  rw [GF256.multiply_zero_right, Nat.xor_zero] at h
  exact h

theorem reconByte_32 (s r : Nat) (hs : s < 256) (hr : r < 256) :
    KeySharing.lagrangePoints
      [(3, KeySharing.evaluatePolynomial [s, r] 3),
       (2, KeySharing.evaluatePolynomial [s, r] 2)] 0 = .ok s := by
  have h := lagrange_pair_eval 3 2 0 0 s r _ _ hs hr rfl rfl rfl rfl rfl rfl
    (by simp only [multiply_lit_eq, exp_table_lit, log_table_lit]; decide)
    (by simp only [multiply_lit_eq, exp_table_lit, log_table_lit]; decide)
  rw [GF256.multiply_zero_right, Nat.xor_zero] at h
  exact h

theorem deriveByte_12_3 (s r : Nat) (hs : s < 256) (hr : r < 256) :
    KeySharing.lagrangePoints
      [(1, KeySharing.evaluatePolynomial [s, r] 1),
       (2, KeySharing.evaluatePolynomial [s, r] 2)] 3
      = .ok (KeySharing.evaluatePolynomial [s, r] 3) := by
  rw [evalPoly_x 3 s r hs rfl rfl]
  exact lagrange_pair_eval 1 2 3 3 s r _ _ hs hr rfl rfl rfl rfl rfl rfl
    (by simp only [multiply_lit_eq, exp_table_lit, log_table_lit]; decide)
    (by simp only [multiply_lit_eq, exp_table_lit, log_table_lit]; decide)

theorem deriveByte_13_2 (s r : Nat) (hs : s < 256) (hr : r < 256) :
    KeySharing.lagrangePoints
      [(1, KeySharing.evaluatePolynomial [s, r] 1),
       (3, KeySharing.evaluatePolynomial [s, r] 3)] 2
      = .ok (KeySharing.evaluatePolynomial [s, r] 2) := by
  rw [evalPoly_x 2 s r hs rfl rfl]
  exact lagrange_pair_eval 1 3 2 2 s r _ _ hs hr rfl rfl rfl rfl rfl rfl
    (by simp only [multiply_lit_eq, exp_table_lit, log_table_lit]; decide)
    (by simp only [multiply_lit_eq, exp_table_lit, log_table_lit]; decide)

theorem deriveByte_23_1 (s r : Nat) (hs : s < 256) (hr : r < 256) :
    KeySharing.lagrangePoints
      [(2, KeySharing.evaluatePolynomial [s, r] 2),
       (3, KeySharing.evaluatePolynomial [s, r] 3)] 1
      = .ok (KeySharing.evaluatePolynomial [s, r] 1) := by
  rw [evalPoly_x 1 s r hs rfl rfl]
  exact lagrange_pair_eval 2 3 1 1 s r _ _ hs hr rfl rfl rfl rfl rfl rfl
    (by simp only [multiply_lit_eq, exp_table_lit, log_table_lit]; decide)
    (by simp only [multiply_lit_eq, exp_table_lit, log_table_lit]; decide)

theorem reconByte_123 (s r : Nat) (hs : s < 256) (hr : r < 256) :
    KeySharing.lagrangePoints
      [(1, KeySharing.evaluatePolynomial [s, r] 1),
       (2, KeySharing.evaluatePolynomial [s, r] 2),
       (3, KeySharing.evaluatePolynomial [s, r] 3)] 0 = .ok s := by
  have h := lagrange_triple_eval 1 2 3 0 0 s r _ _ _ _ _ _ hs hr rfl rfl rfl rfl rfl rfl
    rfl rfl rfl rfl rfl rfl
    (by simp only [multiply_lit_eq, exp_table_lit, log_table_lit]; decide)
    (by simp only [multiply_lit_eq, exp_table_lit, log_table_lit]; decide)
  rw [GF256.multiply_zero_right, Nat.xor_zero] at h
  exact h

theorem filter_not_verify_nil {shares : List Share}
    (hv : ∀ s ∈ shares, KeySharing.verifyShare s = true) :
    (shares.filter fun s => !KeySharing.verifyShare s) = [] :=
  List.filter_eq_nil_iff.mpr (fun a ha => by simp [hv a ha])

theorem exists_tampered_filter_pos {shares : List Share} {s : Share} (hs : s ∈ shares)
    (hfail : KeySharing.verifyShare s = false) :
    0 < (shares.filter fun t => !KeySharing.verifyShare t).length :=
  List.length_pos_iff_exists_mem.mpr ⟨s, List.mem_filter.mpr ⟨hs, by simp [hfail]⟩⟩

theorem dedup_length_le_one {l : List Nat} (h : ∀ a ∈ l, ∀ b ∈ l, a = b) :
    l.dedup.length ≤ 1 := by
  rcases hl : l.dedup with _ | ⟨a, _ | ⟨b, t⟩⟩
  · simp
  · simp
  · exfalso
    have ha : a ∈ l.dedup := by rw [hl]; exact List.mem_cons_self _ _
    have hb : b ∈ l.dedup := by
      rw [hl]; exact List.mem_cons_of_mem _ (List.mem_cons_self _ _)
    have hnd := List.nodup_dedup l
    rw [hl] at hnd
    have hab : a = b := h a (List.mem_dedup.mp ha) b (List.mem_dedup.mp hb)
    exact (List.nodup_cons.mp hnd).1 (by rw [hab]; exact List.mem_cons_self _ _)

theorem version_dedup_le_one {shares : List Share}
    (hver : ∀ s ∈ shares, ∀ t ∈ shares, s.version = t.version) :
    ((shares.map fun u => u.version).dedup).length ≤ 1 := by
  apply dedup_length_le_one
  intro a ha b hb
  obtain ⟨sa, hsa, rfl⟩ := List.mem_map.mp ha
  obtain ⟨sb, hsb, rfl⟩ := List.mem_map.mp hb
  exact hver sa hsa sb hsb

theorem version_dedup_gt_one {shares : List Share} {s t : Share} (hs : s ∈ shares)
    (ht : t ∈ shares) (hne : s.version ≠ t.version) :
    1 < ((shares.map fun u => u.version).dedup).length := by
  by_contra hle
  push_neg at hle
  have h1 : s.version ∈ (shares.map fun u => u.version).dedup :=
    List.mem_dedup.mpr (List.mem_map.mpr ⟨s, hs, rfl⟩)
  have h2 : t.version ∈ (shares.map fun u => u.version).dedup :=
    List.mem_dedup.mpr (List.mem_map.mpr ⟨t, ht, rfl⟩)
  rcases hd : (shares.map fun u => u.version).dedup with _ | ⟨a, rest⟩
  · rw [hd] at h1
    exact absurd h1 (List.not_mem_nil _)
  · rw [hd] at h1 h2 hle
    have hrest : rest = [] := by
      apply List.eq_nil_of_length_eq_zero
      simp only [List.length_cons] at hle
      omega
    subst hrest
    have e1 : s.version = a := by simpa using h1
    have e2 : t.version = a := by simpa using h2
    exact hne (e1.trans e2.symm)

theorem mapM_ok {F : Nat → Except KeyError Nat} {g : Nat → Nat} :
    ∀ {l : List Nat}, (∀ b ∈ l, F b = .ok (g b)) → l.mapM F = .ok (l.map g) := by
  intro l
  induction l with
  | nil => intro _; rfl
  | cons a tl ih =>
    intro h
    rw [List.mapM_cons, h a (List.mem_cons_self a tl),
      ih (fun b hb => h b (List.mem_cons_of_mem a hb))]
    rfl

theorem mapM_cons_error {F : Nat → Except KeyError Nat} {a : Nat} {l : List Nat}
    {e : KeyError} (h : F a = .error e) : (a :: l).mapM F = .error e := by
  rw [List.mapM_cons, h]
  rfl

theorem getD_map_range {f : Nat → Nat} {n b : Nat} (hb : b < n) :
    ((List.range n).map f).getD b 0 = f b := by
  rw [List.getD_eq_getElem _ _ (by simpa using hb)]
  simp

theorem map_range_getD (l : List Nat) :
    (List.range l.length).map (fun b => l.getD b 0) = l := by
  apply List.ext_getElem
  · simp
  · intro i h1 h2
    simp [List.getElem?_eq_getElem h2]

theorem getD_lt_256 {l : List Nat} (h : ∀ v ∈ l, v < 256) (b : Nat) : l.getD b 0 < 256 := by
  by_cases hb : b < l.length
  · rw [List.getD_eq_getElem l 0 hb]
    exact h _ (List.getElem_mem hb)
  · rw [List.getD_eq_default l 0 (by omega)]
    norm_num

theorem splitShareY_length (pk rnd : List Nat) (i : Nat) :
    (KeySharing.splitShareY pk rnd i).length = pk.length := by
  simp [KeySharing.splitShareY]

theorem splitShareY_getD (pk rnd : List Nat) (i b : Nat) (hb : b < pk.length) :
    (KeySharing.splitShareY pk rnd i).getD b 0
      = KeySharing.evaluatePolynomial [pk.getD b 0, rnd.getD b 0] i :=
  getD_map_range hb

theorem verify_stamped (t : ShareType) (x : Nat) (y : List Nat) (v : Nat) :
    KeySharing.verifyShare ⟨t, x, y, v, some ⟨x, y, t⟩⟩ = true := by
  simp [KeySharing.verifyShare, KeySharing.calculateShareHash]

theorem split_eq (pk rnd : List Nat) :
    KeySharing.split pk rnd
      = [⟨.deviceShare, 1, KeySharing.splitShareY pk rnd 1, 1,
           some ⟨1, KeySharing.splitShareY pk rnd 1, .deviceShare⟩⟩,
         ⟨.serverShare, 2, KeySharing.splitShareY pk rnd 2, 1,
           some ⟨2, KeySharing.splitShareY pk rnd 2, .serverShare⟩⟩,
         ⟨.recoveryShare, 3, KeySharing.splitShareY pk rnd 3, 1,
           some ⟨3, KeySharing.splitShareY pk rnd 3, .recoveryShare⟩⟩] := rfl

theorem reconstruct_checks_pass (shares : List Share) (h2 : ¬ shares.length < 2)
    (hv : ∀ s ∈ shares, KeySharing.verifyShare s = true)
    (hver : ∀ s ∈ shares, ∀ t ∈ shares, s.version = t.version) :
    KeySharing.reconstruct shares = KeySharing.interpolateSecret shares := by
  unfold KeySharing.reconstruct
  rw [if_neg h2, if_neg (by rw [filter_not_verify_nil hv]; simp),
    if_neg (by have := version_dedup_le_one hver; omega)]

theorem interpolate_split_pair (S rnd : List Nat) (hS : ∀ v ∈ S, v < 256)
    (hrn : ∀ v ∈ rnd, v < 256) (x1 x2 : Nat) (t1 t2 : ShareType)
    (v1 v2 : Nat) (h1 h2 : Option ShareDigest)
    (hbyte : ∀ s r : Nat, s < 256 → r < 256 →
      KeySharing.lagrangePoints [(x1, KeySharing.evaluatePolynomial [s, r] x1),
        (x2, KeySharing.evaluatePolynomial [s, r] x2)] 0 = .ok s) :
    KeySharing.interpolateSecret
      [⟨t1, x1, KeySharing.splitShareY S rnd x1, v1, h1⟩,
       ⟨t2, x2, KeySharing.splitShareY S rnd x2, v2, h2⟩] = .ok S := by
  have hpoint : ∀ b ∈ List.range S.length,
      KeySharing.lagrangeByte
        [⟨t1, x1, KeySharing.splitShareY S rnd x1, v1, h1⟩,
         ⟨t2, x2, KeySharing.splitShareY S rnd x2, v2, h2⟩] 0 b = .ok (S.getD b 0) := by
    intro b hb
    have hbS : b < S.length := List.mem_range.mp hb
    show KeySharing.lagrangePoints
      [(x1, (KeySharing.splitShareY S rnd x1).getD b 0),
       (x2, (KeySharing.splitShareY S rnd x2).getD b 0)] 0 = .ok (S.getD b 0)
    rw [splitShareY_getD S rnd x1 b hbS, splitShareY_getD S rnd x2 b hbS]
    exact hbyte _ _ (getD_lt_256 hS b) (getD_lt_256 hrn b)
  show (List.range (KeySharing.splitShareY S rnd x1).length).mapM _ = _
  rw [splitShareY_length]
  rw [mapM_ok hpoint, map_range_getD]

theorem interpolate_split_triple (S rnd : List Nat) (hS : ∀ v ∈ S, v < 256)
    (hrn : ∀ v ∈ rnd, v < 256) (x1 x2 x3 : Nat) (t1 t2 t3 : ShareType)
    (v1 v2 v3 : Nat) (h1 h2 h3 : Option ShareDigest)
    (hbyte : ∀ s r : Nat, s < 256 → r < 256 →
      KeySharing.lagrangePoints [(x1, KeySharing.evaluatePolynomial [s, r] x1),
        (x2, KeySharing.evaluatePolynomial [s, r] x2),
        (x3, KeySharing.evaluatePolynomial [s, r] x3)] 0 = .ok s) :
    KeySharing.interpolateSecret
      [⟨t1, x1, KeySharing.splitShareY S rnd x1, v1, h1⟩,
       ⟨t2, x2, KeySharing.splitShareY S rnd x2, v2, h2⟩,
       ⟨t3, x3, KeySharing.splitShareY S rnd x3, v3, h3⟩] = .ok S := by
  have hpoint : ∀ b ∈ List.range S.length,
      KeySharing.lagrangeByte
        [⟨t1, x1, KeySharing.splitShareY S rnd x1, v1, h1⟩,
         ⟨t2, x2, KeySharing.splitShareY S rnd x2, v2, h2⟩,
         ⟨t3, x3, KeySharing.splitShareY S rnd x3, v3, h3⟩] 0 b = .ok (S.getD b 0) := by
    intro b hb
    have hbS : b < S.length := List.mem_range.mp hb
    show KeySharing.lagrangePoints
      [(x1, (KeySharing.splitShareY S rnd x1).getD b 0),
       (x2, (KeySharing.splitShareY S rnd x2).getD b 0),
       (x3, (KeySharing.splitShareY S rnd x3).getD b 0)] 0 = .ok (S.getD b 0)
    rw [splitShareY_getD S rnd x1 b hbS, splitShareY_getD S rnd x2 b hbS,
      splitShareY_getD S rnd x3 b hbS]
    exact hbyte _ _ (getD_lt_256 hS b) (getD_lt_256 hrn b)
  show (List.range (KeySharing.splitShareY S rnd x1).length).mapM _ = _
  rw [splitShareY_length]
  rw [mapM_ok hpoint, map_range_getD]

theorem reconstruct_split_pair (S rnd : List Nat) (hS : ∀ v ∈ S, v < 256)
    (hrn : ∀ v ∈ rnd, v < 256) (x1 x2 : Nat) (t1 t2 : ShareType)
    (hbyte : ∀ s r : Nat, s < 256 → r < 256 →
      KeySharing.lagrangePoints [(x1, KeySharing.evaluatePolynomial [s, r] x1),
        (x2, KeySharing.evaluatePolynomial [s, r] x2)] 0 = .ok s) :
    KeySharing.reconstruct
      [⟨t1, x1, KeySharing.splitShareY S rnd x1, 1,
         some ⟨x1, KeySharing.splitShareY S rnd x1, t1⟩⟩,
       ⟨t2, x2, KeySharing.splitShareY S rnd x2, 1,
         some ⟨x2, KeySharing.splitShareY S rnd x2, t2⟩⟩] = .ok S := by
  have hv : ∀ s ∈ ([⟨t1, x1, KeySharing.splitShareY S rnd x1, 1,
        some ⟨x1, KeySharing.splitShareY S rnd x1, t1⟩⟩,
      ⟨t2, x2, KeySharing.splitShareY S rnd x2, 1,
        some ⟨x2, KeySharing.splitShareY S rnd x2, t2⟩⟩] : List Share),
      KeySharing.verifyShare s = true := by
    intro s hs
    simp only [List.mem_cons, List.not_mem_nil, or_false] at hs
    rcases hs with rfl | rfl
    · exact verify_stamped _ _ _ _
    · exact verify_stamped _ _ _ _
  have hver : ∀ s ∈ ([⟨t1, x1, KeySharing.splitShareY S rnd x1, 1,
        some ⟨x1, KeySharing.splitShareY S rnd x1, t1⟩⟩,
      ⟨t2, x2, KeySharing.splitShareY S rnd x2, 1,
        some ⟨x2, KeySharing.splitShareY S rnd x2, t2⟩⟩] : List Share),
      ∀ t ∈ ([⟨t1, x1, KeySharing.splitShareY S rnd x1, 1,
        some ⟨x1, KeySharing.splitShareY S rnd x1, t1⟩⟩,
      ⟨t2, x2, KeySharing.splitShareY S rnd x2, 1,
        some ⟨x2, KeySharing.splitShareY S rnd x2, t2⟩⟩] : List Share),
      s.version = t.version := by
    intro s hs t ht
    simp only [List.mem_cons, List.not_mem_nil, or_false] at hs ht
    rcases hs with rfl | rfl <;> rcases ht with rfl | rfl <;> rfl
  rw [reconstruct_checks_pass _ (by norm_num) hv hver]
  exact interpolate_split_pair S rnd hS hrn x1 x2 t1 t2 1 1 _ _ hbyte

theorem reconstruct_split_triple (S rnd : List Nat) (hS : ∀ v ∈ S, v < 256)
    (hrn : ∀ v ∈ rnd, v < 256) (x1 x2 x3 : Nat) (t1 t2 t3 : ShareType)
    (hbyte : ∀ s r : Nat, s < 256 → r < 256 →
      KeySharing.lagrangePoints [(x1, KeySharing.evaluatePolynomial [s, r] x1),
        (x2, KeySharing.evaluatePolynomial [s, r] x2),
        (x3, KeySharing.evaluatePolynomial [s, r] x3)] 0 = .ok s) :
    KeySharing.reconstruct
      [⟨t1, x1, KeySharing.splitShareY S rnd x1, 1,
         some ⟨x1, KeySharing.splitShareY S rnd x1, t1⟩⟩,
       ⟨t2, x2, KeySharing.splitShareY S rnd x2, 1,
         some ⟨x2, KeySharing.splitShareY S rnd x2, t2⟩⟩,
       ⟨t3, x3, KeySharing.splitShareY S rnd x3, 1,
         some ⟨x3, KeySharing.splitShareY S rnd x3, t3⟩⟩] = .ok S := by
  have hv : ∀ s ∈ ([⟨t1, x1, KeySharing.splitShareY S rnd x1, 1,
        some ⟨x1, KeySharing.splitShareY S rnd x1, t1⟩⟩,
      ⟨t2, x2, KeySharing.splitShareY S rnd x2, 1,
        some ⟨x2, KeySharing.splitShareY S rnd x2, t2⟩⟩,
      ⟨t3, x3, KeySharing.splitShareY S rnd x3, 1,
        some ⟨x3, KeySharing.splitShareY S rnd x3, t3⟩⟩] : List Share),
      KeySharing.verifyShare s = true := by
    intro s hs
    simp only [List.mem_cons, List.not_mem_nil, or_false] at hs
    rcases hs with rfl | rfl | rfl <;> exact verify_stamped _ _ _ _
  have hver : ∀ s ∈ ([⟨t1, x1, KeySharing.splitShareY S rnd x1, 1,
        some ⟨x1, KeySharing.splitShareY S rnd x1, t1⟩⟩,
      ⟨t2, x2, KeySharing.splitShareY S rnd x2, 1,
        some ⟨x2, KeySharing.splitShareY S rnd x2, t2⟩⟩,
      ⟨t3, x3, KeySharing.splitShareY S rnd x3, 1,
        some ⟨x3, KeySharing.splitShareY S rnd x3, t3⟩⟩] : List Share),
      ∀ t ∈ ([⟨t1, x1, KeySharing.splitShareY S rnd x1, 1,
        some ⟨x1, KeySharing.splitShareY S rnd x1, t1⟩⟩,
      ⟨t2, x2, KeySharing.splitShareY S rnd x2, 1,
        some ⟨x2, KeySharing.splitShareY S rnd x2, t2⟩⟩,
      ⟨t3, x3, KeySharing.splitShareY S rnd x3, 1,
        some ⟨x3, KeySharing.splitShareY S rnd x3, t3⟩⟩] : List Share),
      s.version = t.version := by
    intro s hs t ht
    simp only [List.mem_cons, List.not_mem_nil, or_false] at hs ht
    rcases hs with rfl | rfl | rfl <;> rcases ht with rfl | rfl | rfl <;> rfl
  rw [reconstruct_checks_pass _ (by norm_num) hv hver]
  exact interpolate_split_triple S rnd hS hrn x1 x2 x3 t1 t2 t3 1 1 1 _ _ _ hbyte

theorem gcs_split_pair (S rnd pk : List Nat) (hS : ∀ v ∈ S, v < 256)
    (hrn : ∀ v ∈ rnd, v < 256) (hlen : pk.length = S.length)
    (x1 x2 x3 : Nat) (t1 t2 t3 : ShareType)
    (hx3 : (if t3 = ShareType.deviceShare then 1
      else if t3 = ShareType.serverShare then 2 else 3) = x3)
    (hbyte : ∀ s r : Nat, s < 256 → r < 256 →
      KeySharing.lagrangePoints [(x1, KeySharing.evaluatePolynomial [s, r] x1),
        (x2, KeySharing.evaluatePolynomial [s, r] x2)] x3
        = .ok (KeySharing.evaluatePolynomial [s, r] x3)) :
    KeySharing.generateCompatibleShare pk
      [⟨t1, x1, KeySharing.splitShareY S rnd x1, 1,
         some ⟨x1, KeySharing.splitShareY S rnd x1, t1⟩⟩,
       ⟨t2, x2, KeySharing.splitShareY S rnd x2, 1,
         some ⟨x2, KeySharing.splitShareY S rnd x2, t2⟩⟩] t3
      = .ok ⟨t3, x3, KeySharing.splitShareY S rnd x3, 1,
          some ⟨x3, KeySharing.splitShareY S rnd x3, t3⟩⟩ := by
  have hv : ∀ s ∈ ([⟨t1, x1, KeySharing.splitShareY S rnd x1, 1,
        some ⟨x1, KeySharing.splitShareY S rnd x1, t1⟩⟩,
      ⟨t2, x2, KeySharing.splitShareY S rnd x2, 1,
        some ⟨x2, KeySharing.splitShareY S rnd x2, t2⟩⟩] : List Share),
      KeySharing.verifyShare s = true := by
    intro s hs
    simp only [List.mem_cons, List.not_mem_nil, or_false] at hs
    rcases hs with rfl | rfl <;> exact verify_stamped _ _ _ _
  have hver : ∀ s ∈ ([⟨t1, x1, KeySharing.splitShareY S rnd x1, 1,
        some ⟨x1, KeySharing.splitShareY S rnd x1, t1⟩⟩,
      ⟨t2, x2, KeySharing.splitShareY S rnd x2, 1,
        some ⟨x2, KeySharing.splitShareY S rnd x2, t2⟩⟩] : List Share),
      ∀ t ∈ ([⟨t1, x1, KeySharing.splitShareY S rnd x1, 1,
        some ⟨x1, KeySharing.splitShareY S rnd x1, t1⟩⟩,
      ⟨t2, x2, KeySharing.splitShareY S rnd x2, 1,
        some ⟨x2, KeySharing.splitShareY S rnd x2, t2⟩⟩] : List Share),
      s.version = t.version := by
    intro s hs t ht
    simp only [List.mem_cons, List.not_mem_nil, or_false] at hs ht
    rcases hs with rfl | rfl <;> rcases ht with rfl | rfl <;> rfl
  unfold KeySharing.generateCompatibleShare
  rw [if_neg (by norm_num), if_neg (by rw [filter_not_verify_nil hv]; simp),
    if_neg (by have := version_dedup_le_one hver; omega)]
  simp only []
  rw [hx3, hlen]
  have hpoint : ∀ b ∈ List.range S.length,
      KeySharing.lagrangeByte
        [⟨t1, x1, KeySharing.splitShareY S rnd x1, 1,
           some ⟨x1, KeySharing.splitShareY S rnd x1, t1⟩⟩,
         ⟨t2, x2, KeySharing.splitShareY S rnd x2, 1,
           some ⟨x2, KeySharing.splitShareY S rnd x2, t2⟩⟩] x3 b
        = .ok (KeySharing.evaluatePolynomial [S.getD b 0, rnd.getD b 0] x3) := by
    intro b hb
    have hbS : b < S.length := List.mem_range.mp hb
    show KeySharing.lagrangePoints
      [(x1, (KeySharing.splitShareY S rnd x1).getD b 0),
       (x2, (KeySharing.splitShareY S rnd x2).getD b 0)] x3 = _
    rw [splitShareY_getD S rnd x1 b hbS, splitShareY_getD S rnd x2 b hbS]
    exact hbyte _ _ (getD_lt_256 hS b) (getD_lt_256 hrn b)
  rw [mapM_ok hpoint]
  rfl

theorem reconstruct_insufficient {shares : List Share} (h : shares.length < 2) :
    KeySharing.reconstruct shares = .error .needAtLeastTwoShares := by
  unfold KeySharing.reconstruct
  rw [if_pos h]

theorem reconstruct_tampered {shares : List Share} {s : Share}
    (h2 : ¬ shares.length < 2) (hs : s ∈ shares)
    (hfail : KeySharing.verifyShare s = false) :
    KeySharing.reconstruct shares = .error .invalidOrTamperedShares := by
  unfold KeySharing.reconstruct
  rw [if_neg h2, if_pos (exists_tampered_filter_pos hs hfail)]

theorem reconstruct_version_mismatch {shares : List Share} {s t : Share}
    (h2 : ¬ shares.length < 2)
    (hv : ∀ u ∈ shares, KeySharing.verifyShare u = true)
    (hs : s ∈ shares) (ht : t ∈ shares) (hne : s.version ≠ t.version) :
    KeySharing.reconstruct shares = .error .incompatibleShareVersions := by
  unfold KeySharing.reconstruct
  rw [if_neg h2, if_neg (by rw [filter_not_verify_nil hv]; simp),
    if_pos (version_dedup_gt_one hs ht hne)]

theorem lagrange_dup_x (x y1 y2 atX : Nat) :
    KeySharing.lagrangePoints [(x, y1), (x, y2)] atX = .error .divisionByZero := by
  simp [KeySharing.lagrangePoints, List.foldlM, List.enum, List.enumFrom,
    Bind.bind, Except.bind, Pure.pure, Except.pure, GF256.subtract, GF256.add,
    Nat.xor_self, GF256.inverse]

/-- C1: for every secret S of any length (including empty), reconstructing
from any 2 of the 3 shares returned by split — all three choose-2 pairings —
yields S bit-for-bit, and reconstructing from all 3 shares also yields S. -/
theorem claim_C1_roundtrip (S rnd : List Nat) (hS : ∀ v ∈ S, v < 256)
    (hrn : ∀ v ∈ rnd, v < 256) (s0 s1 s2 : Share)
    (hsplit : KeySharing.split S rnd = [s0, s1, s2]) :
    KeySharing.reconstruct [s0, s1] = .ok S
      ∧ KeySharing.reconstruct [s0, s2] = .ok S
      ∧ KeySharing.reconstruct [s1, s2] = .ok S
      ∧ KeySharing.reconstruct [s0, s1, s2] = .ok S := by
  rw [split_eq] at hsplit
  injection hsplit with e0 rest
  injection rest with e1 rest2
  injection rest2 with e2 _
  subst e0
  subst e1
  subst e2
  refine ⟨?_, ?_, ?_, ?_⟩
  · exact reconstruct_split_pair S rnd hS hrn 1 2 _ _ reconByte_12
  · exact reconstruct_split_pair S rnd hS hrn 1 3 _ _ reconByte_13
  · exact reconstruct_split_pair S rnd hS hrn 2 3 _ _ reconByte_23
  · exact reconstruct_split_triple S rnd hS hrn 1 2 3 _ _ _ reconByte_123

theorem claim_C1_roundtrip_witness :
    KeySharing.reconstruct (KeySharing.split [65, 66] [7, 200]) = .ok [65, 66] := by
  rw [split_eq]
  exact (claim_C1_roundtrip [65, 66] [7, 200] (by decide) (by decide) _ _ _ rfl).2.2.2

/-- C2: split returns exactly 3 shares in the fixed order
device, server, recovery with x = 1, 2, 3, each with payload of the secret's
length and version 1; the empty secret yields three empty payloads. -/
theorem claim_C2_split_shape (S rnd : List Nat) :
    (KeySharing.split S rnd).length = 3
      ∧ (KeySharing.split S rnd).map (fun s => s.type)
          = [ShareType.deviceShare, ShareType.serverShare, ShareType.recoveryShare]
      ∧ (KeySharing.split S rnd).map (fun s => s.x) = [1, 2, 3]
      ∧ (∀ sh ∈ KeySharing.split S rnd, sh.version = 1 ∧ sh.y.length = S.length)
      ∧ (S.length = 0 → ∀ sh ∈ KeySharing.split S rnd, sh.y = []) := by
  refine ⟨rfl, rfl, rfl, ?_, ?_⟩
  · intro sh hsh
    rw [split_eq] at hsh
    simp only [List.mem_cons, List.not_mem_nil, or_false] at hsh
    rcases hsh with rfl | rfl | rfl <;> exact ⟨rfl, splitShareY_length S rnd _⟩
  · intro hS0 sh hsh
    rw [split_eq] at hsh
    simp only [List.mem_cons, List.not_mem_nil, or_false] at hsh
    have hy : ∀ i, KeySharing.splitShareY S rnd i = [] := by
      intro i
      unfold KeySharing.splitShareY
      rw [hS0]
      rfl
    rcases hsh with rfl | rfl | rfl <;> exact hy _

theorem claim_C2_split_shape_witness :
    (KeySharing.split [65, 66] [7, 200]).length = 3
      ∧ ((KeySharing.split [] []).headD default).y = [] := by
  constructor
  · exact (claim_C2_split_shape [65, 66] [7, 200]).1
  · exact (claim_C2_split_shape [] []).2.2.2.2 rfl _
      (by rw [split_eq]; simp [List.headD_cons, split_eq])

/-- C3: deriving the missing third share from two of split's shares yields a
share whose payload equals the originally generated third share byte for
byte (in fact the whole share coincides), and reconstructing from the
derived share plus either original gives the same secret as the two
originals directly. -/
theorem claim_C3_compatible_share (S rnd pk : List Nat) (hS : ∀ v ∈ S, v < 256)
    (hrn : ∀ v ∈ rnd, v < 256) (hlen : pk.length = S.length) (s0 s1 s2 : Share)
    (hsplit : KeySharing.split S rnd = [s0, s1, s2]) :
    KeySharing.generateCompatibleShare pk [s0, s1] .recoveryShare = .ok s2
      ∧ KeySharing.generateCompatibleShare pk [s0, s2] .serverShare = .ok s1
      ∧ KeySharing.generateCompatibleShare pk [s1, s2] .deviceShare = .ok s0
      ∧ KeySharing.reconstruct [s2, s0] = KeySharing.reconstruct [s0, s1]
      ∧ KeySharing.reconstruct [s2, s1] = KeySharing.reconstruct [s0, s1]
      ∧ KeySharing.reconstruct [s1, s0] = KeySharing.reconstruct [s0, s2]
      ∧ KeySharing.reconstruct [s1, s2] = KeySharing.reconstruct [s0, s2]
      ∧ KeySharing.reconstruct [s0, s1] = KeySharing.reconstruct [s1, s2]
      ∧ KeySharing.reconstruct [s0, s2] = KeySharing.reconstruct [s1, s2] := by
  rw [split_eq] at hsplit
  injection hsplit with e0 rest
  injection rest with e1 rest2
  injection rest2 with e2 _
  subst e0
  subst e1
  subst e2
  refine ⟨?_, ?_, ?_, ?_, ?_, ?_, ?_, ?_, ?_⟩
  · exact gcs_split_pair S rnd pk hS hrn hlen 1 2 3 _ _ _ (by decide) deriveByte_12_3
  · exact gcs_split_pair S rnd pk hS hrn hlen 1 3 2 _ _ _ (by decide) deriveByte_13_2
  · exact gcs_split_pair S rnd pk hS hrn hlen 2 3 1 _ _ _ (by decide) deriveByte_23_1
  · rw [reconstruct_split_pair S rnd hS hrn 3 1 _ _ reconByte_31,
      reconstruct_split_pair S rnd hS hrn 1 2 _ _ reconByte_12]
  · rw [reconstruct_split_pair S rnd hS hrn 3 2 _ _ reconByte_32,
      reconstruct_split_pair S rnd hS hrn 1 2 _ _ reconByte_12]
  · rw [reconstruct_split_pair S rnd hS hrn 2 1 _ _ reconByte_21,
      reconstruct_split_pair S rnd hS hrn 1 3 _ _ reconByte_13]
  · rw [reconstruct_split_pair S rnd hS hrn 2 3 _ _ reconByte_23,
      reconstruct_split_pair S rnd hS hrn 1 3 _ _ reconByte_13]
  · rw [reconstruct_split_pair S rnd hS hrn 1 2 _ _ reconByte_12,
      reconstruct_split_pair S rnd hS hrn 2 3 _ _ reconByte_23]
  · rw [reconstruct_split_pair S rnd hS hrn 1 3 _ _ reconByte_13,
      reconstruct_split_pair S rnd hS hrn 2 3 _ _ reconByte_23]

theorem claim_C3_compatible_share_witness :
    KeySharing.generateCompatibleShare [0, 0]
      [⟨.deviceShare, 1, KeySharing.splitShareY [65, 66] [7, 200] 1, 1,
         some ⟨1, KeySharing.splitShareY [65, 66] [7, 200] 1, .deviceShare⟩⟩,
       ⟨.serverShare, 2, KeySharing.splitShareY [65, 66] [7, 200] 2, 1,
         some ⟨2, KeySharing.splitShareY [65, 66] [7, 200] 2, .serverShare⟩⟩]
      ShareType.recoveryShare
      = .ok ⟨.recoveryShare, 3, KeySharing.splitShareY [65, 66] [7, 200] 3, 1,
          some ⟨3, KeySharing.splitShareY [65, 66] [7, 200] 3, .recoveryShare⟩⟩ :=
  (claim_C3_compatible_share [65, 66] [7, 200] [0, 0] (by decide) (by decide) (by decide)
    _ _ _ rfl).1

/-- C4: reconstruct checks its preconditions in order before any
interpolation arithmetic: fewer than 2 shares, any failed integrity check,
then version disagreement each produce the corresponding typed error, and
when all checks pass the result is the interpolated secret. -/
theorem claim_C4_reconstruct_preconditions (shares : List Share) :
    (shares.length < 2 →
        KeySharing.reconstruct shares = .error .needAtLeastTwoShares)
      ∧ (2 ≤ shares.length → (∃ s ∈ shares, KeySharing.verifyShare s = false) →
          KeySharing.reconstruct shares = .error .invalidOrTamperedShares)
      ∧ (2 ≤ shares.length → (∀ s ∈ shares, KeySharing.verifyShare s = true) →
          (∃ s ∈ shares, ∃ t ∈ shares, s.version ≠ t.version) →
          KeySharing.reconstruct shares = .error .incompatibleShareVersions)
      ∧ (2 ≤ shares.length → (∀ s ∈ shares, KeySharing.verifyShare s = true) →
          (∀ s ∈ shares, ∀ t ∈ shares, s.version = t.version) →
          KeySharing.reconstruct shares = KeySharing.interpolateSecret shares) := by
  refine ⟨?_, ?_, ?_, ?_⟩
  · exact fun h => reconstruct_insufficient h
  · rintro h2 ⟨s, hs, hf⟩
    exact reconstruct_tampered (by omega) hs hf
  · rintro h2 hv ⟨s, hs, t, ht, hne⟩
    exact reconstruct_version_mismatch (by omega) hv hs ht hne
  · intro h2 hv hver
    exact reconstruct_checks_pass shares (by omega) hv hver

theorem claim_C4_reconstruct_preconditions_witness :
    KeySharing.reconstruct [] = .error .needAtLeastTwoShares
      ∧ KeySharing.reconstruct
          [⟨.deviceShare, 1, [5], 1, none⟩,
           ⟨.serverShare, 2, [9], 1, some ⟨2, [9], .serverShare⟩⟩]
          = .error .invalidOrTamperedShares
      ∧ KeySharing.reconstruct
          [⟨.deviceShare, 1, [5], 1, some ⟨1, [5], .deviceShare⟩⟩,
           ⟨.serverShare, 2, [9], 2, some ⟨2, [9], .serverShare⟩⟩]
          = .error .incompatibleShareVersions
      ∧ KeySharing.reconstruct
          [⟨.deviceShare, 1, [5], 1, some ⟨1, [5], .deviceShare⟩⟩,
           ⟨.serverShare, 2, [9], 1, some ⟨2, [9], .serverShare⟩⟩]
          = KeySharing.interpolateSecret
          [⟨.deviceShare, 1, [5], 1, some ⟨1, [5], .deviceShare⟩⟩,
           ⟨.serverShare, 2, [9], 1, some ⟨2, [9], .serverShare⟩⟩] := by
  refine ⟨(claim_C4_reconstruct_preconditions []).1 (by decide),
    (claim_C4_reconstruct_preconditions _).2.1 (by decide)
      ⟨⟨.deviceShare, 1, [5], 1, none⟩, by decide, by decide⟩,
    (claim_C4_reconstruct_preconditions _).2.2.1 (by decide) (by decide)
      ⟨⟨.deviceShare, 1, [5], 1, some ⟨1, [5], .deviceShare⟩⟩, by decide,
       ⟨.serverShare, 2, [9], 2, some ⟨2, [9], .serverShare⟩⟩, by decide, by decide⟩,
    (claim_C4_reconstruct_preconditions _).2.2.2 (by decide) (by decide) (by decide)⟩

/-- C5: two otherwise-valid shares with the same coordinate and a non-empty
payload make reconstruct fail with the division-by-zero condition; it never
returns a byte sequence. -/
theorem claim_C5_duplicate_x (s1 s2 : Share) (h1 : KeySharing.verifyShare s1 = true)
    (h2 : KeySharing.verifyShare s2 = true) (hx : s1.x = s2.x)
    (hv : s1.version = s2.version) (hy : s1.y ≠ []) :
    KeySharing.reconstruct [s1, s2] = .error .divisionByZero := by
  have hvv : ∀ s ∈ [s1, s2], KeySharing.verifyShare s = true := by
    intro s hs
    simp only [List.mem_cons, List.not_mem_nil, or_false] at hs
    rcases hs with rfl | rfl
    · exact h1
    · exact h2
  have hver : ∀ s ∈ [s1, s2], ∀ t ∈ [s1, s2], s.version = t.version := by
    intro s hs t ht
    simp only [List.mem_cons, List.not_mem_nil, or_false] at hs ht
    rcases hs with rfl | rfl <;> rcases ht with rfl | rfl
    · rfl
    · exact hv
    · exact hv.symm
    · rfl
  rw [reconstruct_checks_pass _ (by norm_num) hvv hver]
  unfold KeySharing.interpolateSecret
  rcases hyl : s1.y with _ | ⟨b0, rest⟩
  · exact absurd hyl hy
  · have hfirst : KeySharing.lagrangeByte [s1, s2] 0 0 = .error .divisionByZero := by
      show KeySharing.lagrangePoints [(s1.x, s1.y.getD 0 0), (s2.x, s2.y.getD 0 0)] 0 = _
      rw [hx]
      exact lagrange_dup_x _ _ _ _
    rw [List.headD_cons, hyl, List.length_cons, List.range_succ_eq_map]
    exact mapM_cons_error hfirst

theorem claim_C5_duplicate_x_witness :
    KeySharing.reconstruct
      [⟨.deviceShare, 1, [5], 1, some ⟨1, [5], .deviceShare⟩⟩,
       ⟨.deviceShare, 1, [5], 1, some ⟨1, [5], .deviceShare⟩⟩]
      = .error .divisionByZero :=
  claim_C5_duplicate_x _ _ (by decide) (by decide) rfl rfl (by decide)

/-- C6 counterexample: the claim states `pow` returns one whenever the
exponent is zero, including for base zero; the source checks the base first,
so `pow 0 0 = 0`, not 1. -/
theorem claim_C6_pow_counterexample : ¬ (GF256.pow 0 0 = 1) := by decide

/-- C6 (amended): `pow` returns zero whenever the base is zero (for every
exponent, including zero); one when the base is nonzero and the exponent is
zero; and otherwise `exp[(log[base]*exp) mod 255]`. -/
theorem claim_C6_pow_amended (base e : Nat) :
    (base = 0 → GF256.pow base e = 0)
      ∧ (base ≠ 0 → e = 0 → GF256.pow base e = 1)
      ∧ (base ≠ 0 → e ≠ 0 → GF256.pow base e
          = GF256.EXP_TABLE.getD ((GF256.LOG_TABLE.getD base 0 * e) % 255) 0) := by
  refine ⟨?_, ?_, ?_⟩
  · intro h
    unfold GF256.pow
    rw [if_pos h]
  · intro h he
    unfold GF256.pow
    rw [if_neg h, if_pos he]
  · intro h he
    unfold GF256.pow
    rw [if_neg h, if_neg he]

theorem claim_C6_pow_amended_witness :
    GF256.pow 0 5 = 0 ∧ GF256.pow 3 0 = 1
      ∧ GF256.pow 3 7 = GF256.EXP_TABLE.getD ((GF256.LOG_TABLE.getD 3 0 * 7) % 255) 0 :=
  ⟨(claim_C6_pow_amended 0 5).1 rfl, (claim_C6_pow_amended 3 0).2.1 (by decide) rfl,
   (claim_C6_pow_amended 3 7).2.2 (by decide) (by decide)⟩

/-- C7: verifyShare fails closed — false when no tag is stored, and
otherwise true exactly when the recomputed tag over (x, y, type) equals the
stored tag. -/
theorem claim_C7_verify_fails_closed (s : Share) :
    (s.hash = none → KeySharing.verifyShare s = false)
      ∧ (KeySharing.verifyShare s = true
          ↔ s.hash = some (KeySharing.calculateShareHash s)) := by
  constructor
  · intro hnone
    unfold KeySharing.verifyShare
    rw [hnone]
  · rcases hh : s.hash with _ | h
    · unfold KeySharing.verifyShare
      rw [hh]
      simp
    · unfold KeySharing.verifyShare
      rw [hh]
      simp only [beq_iff_eq, Option.some.injEq]
      exact eq_comm

theorem claim_C7_verify_fails_closed_witness :
    KeySharing.verifyShare ⟨.deviceShare, 1, [], 1, none⟩ = false :=
  (claim_C7_verify_fails_closed _).1 rfl

theorem inverse_ok (a : Nat) (h1 : 1 < a) :
    GF256.inverse a
      = .ok (GF256.EXP_TABLE.getD ((255 - GF256.LOG_TABLE.getD a 0) % 255) 0) := by
  unfold GF256.inverse
  rw [if_neg (by omega), if_neg (by omega)]

theorem multiply_inverse (a : Nat) (ha : a < 256) (h0 : 0 < a) (inv : Nat)
    (hinv : GF256.inverse a = .ok inv) : GF256.multiply a inv = 1 := by
  by_cases ha1 : a = 1
  · subst ha1
    have hi1 : inv = 1 := by
      unfold GF256.inverse at hinv
      rw [if_neg (by omega), if_pos rfl] at hinv
      exact (Except.ok.inj hinv).symm
    subst hi1
    rw [multiply_lit_eq]
    decide
  · have h2 : 1 < a := by omega
    rw [inverse_ok a h2] at hinv
    have hinv2 : inv = GF256.EXP_TABLE.getD ((255 - GF256.LOG_TABLE.getD a 0) % 255) 0 :=
      (Except.ok.inj hinv).symm
    subst hinv2
    obtain ⟨hla, hea⟩ := log_exp a ha h0
    have hlane : GF256.LOG_TABLE.getD a 0 ≠ 0 := by
      intro h0l
      rw [h0l, exp_getD 0 (by norm_num)] at hea
      simp only [Function.iterate_zero_apply] at hea
      omega
    have hidx : 255 - GF256.LOG_TABLE.getD a 0 < 255 := by omega
    rw [Nat.mod_eq_of_lt hidx, exp_getD _ hidx]
    have hinvpos := (gpow_pos_lt _ hidx).1
    rw [GF256.multiply_nz a _ (by omega) (by omega), log_gpow _ hidx]
    have hsum : (GF256.LOG_TABLE.getD a 0 + (255 - GF256.LOG_TABLE.getD a 0)) % 255 = 0 := by
      omega
    rw [hsum]
    rfl

/-- C8: inverse fails with the division-by-zero condition at 0, returns 1 at
1, otherwise returns `exp[(255 - log[a]) mod 255]`; and multiplying any
nonzero byte by its inverse gives 1. -/
theorem claim_C8_inverse (a : Nat) :
    (a = 0 → GF256.inverse a = .error .divisionByZero)
      ∧ (a = 1 → GF256.inverse a = .ok 1)
      ∧ (1 < a → GF256.inverse a
          = .ok (GF256.EXP_TABLE.getD ((255 - GF256.LOG_TABLE.getD a 0) % 255) 0))
      ∧ (0 < a → a < 256 → ∀ inv, GF256.inverse a = .ok inv →
          GF256.multiply a inv = 1) := by
  refine ⟨?_, ?_, ?_, ?_⟩
  · intro h
    unfold GF256.inverse
    rw [if_pos h]
  · intro h
    unfold GF256.inverse
    rw [if_neg (by omega), if_pos h]
  · intro h
    exact inverse_ok a h
  · intro h0 h2 inv hinv
    exact multiply_inverse a h2 h0 inv hinv

theorem claim_C8_inverse_witness :
    GF256.inverse 0 = .error .divisionByZero ∧ GF256.inverse 1 = .ok 1
      ∧ GF256.multiply 2 142 = 1 :=
  ⟨(claim_C8_inverse 0).1 rfl, (claim_C8_inverse 1).2.1 rfl,
   (claim_C8_inverse 2).2.2.2 (by decide) (by decide) 142
     (by rw [inverse_lit_eq]; decide)⟩

/-- C9: the table-based multiply agrees with the table-free shift-and-XOR
multiplication on every pair of bytes. -/
theorem claim_C9_multiply_equiv : ∀ a, a < 256 → ∀ b, b < 256 →
    GF256.multiply a b = GF256.multiplyWithoutTables a b :=
  fun a ha b hb => GF256.multiply_eq_mwt a ha b hb

theorem claim_C9_multiply_equiv_witness :
    GF256.multiply 7 11 = GF256.multiplyWithoutTables 7 11 :=
  claim_C9_multiply_equiv 7 (by decide) 11 (by decide)

/-- C10: generateCompatibleShare depends on its privateKey argument only
through its length — equal-length keys give identical results (identical
derived payloads in particular). -/
theorem claim_C10_privateKey_length_only (pk1 pk2 : List Nat) (existing : List Share)
    (t : ShareType) (h : pk1.length = pk2.length) :
    KeySharing.generateCompatibleShare pk1 existing t
      = KeySharing.generateCompatibleShare pk2 existing t := by
  unfold KeySharing.generateCompatibleShare
  rw [h]

theorem claim_C10_privateKey_length_only_witness :
    KeySharing.generateCompatibleShare [1, 2] [] ShareType.recoveryShare
      = KeySharing.generateCompatibleShare [3, 4] [] ShareType.recoveryShare :=
  claim_C10_privateKey_length_only [1, 2] [3, 4] [] ShareType.recoveryShare rfl
